import Mathlib

/-!
Verification of the Atlas task-scheduling core against its design document.

The embedding translates the TypeScript source into Lean:
* `assignTasksToBlocks`, `analyzeCalendar`, `classifyEvent` from the
  task-assignment route (block allocator / day-block builder);
* `generateSuggestions`, `generateReasoning` from the task-suggestion route
  (budget suggester);
* `FreeTimeDetector.convertAllDayEvent`, `detectFreeSlotsFromEvents`,
  `suggestTasksForSlots` from the free-time detector.

Instants are modelled as whole minutes (`Int`); the source works in
milliseconds via `Date.getTime()` and every comparison and duration used by
the algorithms is minute-granular, so the translation divides all constants
by 60 000.  JavaScript falsy coalescing `x || d` on numbers is translated
explicitly (both `null` and `0` fall back to `d`).
-/

namespace Atlas

/-- Block categories, source union type `'LEARNING' | 'WORK' | 'FREE'`. -/
inductive BlockContext where
  | LEARNING
  | WORK
  | FREE
deriving DecidableEq, Repr

/-- Task affinity categories, source values `'WORK' | 'PERSONAL' | 'LEARNING'`. -/
inductive TaskContext where
  | WORK
  | PERSONAL
  | LEARNING
deriving DecidableEq, Repr

/-- `TimeBlock` of the task-assignment route: `{start, end, context, eventSummary?}`.
Field `endT` renders the source field `end` (a Lean keyword). -/
structure TimeBlock where
  start : Int
  endT : Int
  context : BlockContext
  eventSummary : Option String := none
deriving DecidableEq, Repr

/-- A task row as the allocator and suggester read it from the database:
`id`, `content`, `context`, `priority`, `deadline`, `estimatedDuration`, `type`.
`deadline` is an instant in minutes; `estimatedDuration` is minutes or `null`. -/
structure Task where
  id : String
  content : String := ""
  context : TaskContext
  priority : Int := 0
  deadline : Option Int := none
  estimatedDuration : Option Int := none
  type : Option String := none
deriving DecidableEq, Repr

/-- `task.estimatedDuration || 30`: JavaScript number coalescing, where both
`null` and `0` are falsy and fall back to the 30-minute default. -/
def taskDuration (t : Task) : Int :=
  match t.estimatedDuration with
  | none => 30
  | some d => if d = 0 then 30 else d

/-- The inner loop of `assignTasksToBlocks`: walk the eligible-task snapshot
for one block, placing each task whose duration fits the remaining capacity,
removing placed tasks from the global pool (`findIndex`/`splice`, i.e. remove
the first pool entry with the same id), and stopping as soon as
`remainingTime < 15`.  Returns the placed ids in order and the reduced pool. -/
def fitTasksInBlock : List Task → Int → List Task → List String × List Task
  | [], _, pool => ([], pool)
  | t :: rest, remaining, pool =>
    if taskDuration t ≤ remaining then
      if remaining - taskDuration t < 15 then
        ([t.id], pool.eraseP (fun x => x.id == t.id))
      else
        let r := fitTasksInBlock rest (remaining - taskDuration t)
          (pool.eraseP (fun x => x.id == t.id))
        (t.id :: r.1, r.2)
    else
      -- the source re-checks the stop condition after a non-placement too
      if remaining < 15 then ([], pool)
      else fitTasksInBlock rest remaining pool

/-- The eligible-task ordering of `assignTasksToBlocks` for one block:
`WORK` blocks take work-affinity tasks then personal-affinity tasks; other
(non-`LEARNING`) blocks, i.e. `FREE` ones, take personal and learning tasks. -/
def eligibleFor (block : TimeBlock) (pool : List Task) : List Task :=
  if block.context = BlockContext.WORK then
    pool.filter (fun t => decide (t.context = TaskContext.WORK))
      ++ pool.filter (fun t => decide (t.context = TaskContext.PERSONAL))
  else
    pool.filter
      (fun t => decide (t.context = TaskContext.PERSONAL)
        || decide (t.context = TaskContext.LEARNING))

/-- One block's step of `assignTasksToBlocks`: skip `LEARNING` blocks and
blocks whose duration `end - start` is shorter than 15 minutes; otherwise fit
the eligible ordering into the block. -/
def assignInBlock (block : TimeBlock) (pool : List Task) : List String × List Task :=
  if block.context = BlockContext.LEARNING then ([], pool)
  else if block.endT - block.start < 15 then ([], pool)
  else fitTasksInBlock (eligibleFor block pool) (block.endT - block.start) pool

/-- The block loop of `assignTasksToBlocks`, threading the shrinking pool. -/
def assignLoop : List TimeBlock → List Task → List String
  | [], _ => []
  | b :: bs, pool =>
    let r := assignInBlock b pool
    r.1 ++ assignLoop bs r.2

/-- `assignTasksToBlocks(blocks, tasks)`: returns the ids of the placed tasks
in placement order. -/
def assignTasksToBlocks (blocks : List TimeBlock) (tasks : List Task) : List String :=
  assignLoop blocks tasks

/-- Same loop as `assignLoop`, additionally recording for each placed id the
block it was placed into (the Placement pairing of the design document). -/
def assignPlaced : List TimeBlock → List Task → List (TimeBlock × String)
  | [], _ => []
  | b :: bs, pool =>
    let r := assignInBlock b pool
    r.1.map (fun id => (b, id)) ++ assignPlaced bs r.2

theorem assignPlaced_snd (blocks : List TimeBlock) (tasks : List Task) :
    (assignPlaced blocks tasks).map Prod.snd = assignTasksToBlocks blocks tasks := by
  show (assignPlaced blocks tasks).map Prod.snd = assignLoop blocks tasks
  induction blocks generalizing tasks with
  | nil => rfl
  | cons b bs ih =>
    simp only [assignPlaced, assignLoop, List.map_append, List.map_map, ih]
    congr 1
    simp

theorem assignPlaced_not_learning (blocks : List TimeBlock) (tasks : List Task) :
    ∀ p ∈ assignPlaced blocks tasks, p.1.context ≠ BlockContext.LEARNING := by
  induction blocks generalizing tasks with
  | nil => intro p hp; cases hp
  | cons b bs ih =>
    intro p hp
    simp only [assignPlaced, List.mem_append] at hp
    rcases hp with hp | hp
    · rcases List.mem_map.1 hp with ⟨id, hid, rfl⟩
      intro hb
      rw [assignInBlock, if_pos hb] at hid
      cases hid
    · exact ih _ p hp

/-- C3: the allocator never pairs a task with an `OBLIGATION` block (the
`LEARNING` context in the code): the traced placements project onto the
output of `assignTasksToBlocks`, and no traced placement lies in a
`LEARNING` block. -/
theorem obligation_blocks_get_no_tasks (blocks : List TimeBlock) (tasks : List Task) :
    (assignPlaced blocks tasks).map Prod.snd = assignTasksToBlocks blocks tasks ∧
      ∀ p ∈ assignPlaced blocks tasks, p.1.context ≠ BlockContext.LEARNING :=
  ⟨assignPlaced_snd blocks tasks, assignPlaced_not_learning blocks tasks⟩

theorem fitTasksInBlock_pool_sublist (elig : List Task) (rem : Int) (pool : List Task) :
    (fitTasksInBlock elig rem pool).2.Sublist pool := by
  induction elig generalizing rem pool with
  | nil => exact List.Sublist.refl _
  | cons t rest ih =>
    by_cases h1 : taskDuration t ≤ rem
    · by_cases h2 : rem - taskDuration t < 15
      · simp only [fitTasksInBlock, if_pos h1, if_pos h2]
        exact List.eraseP_sublist _
      · simp only [fitTasksInBlock, if_pos h1, if_neg h2]
        exact (ih _ _).trans (List.eraseP_sublist _)
    · by_cases h3 : rem < 15
      · simp only [fitTasksInBlock, if_neg h1, if_pos h3]
        exact List.Sublist.refl _
      · simp only [fitTasksInBlock, if_neg h1, if_neg h3]
        exact ih _ _

theorem eraseP_id_not_mem (pool : List Task) (s : String)
    (h : (pool.map Task.id).Nodup) :
    s ∉ (pool.eraseP (fun x => x.id == s)).map Task.id := by
  induction pool with
  | nil => simp [List.eraseP]
  | cons x xs ih =>
    simp only [List.map_cons, List.nodup_cons] at h
    by_cases hx : x.id = s
    · have hb : (x.id == s) = true := beq_iff_eq.2 hx
      rw [List.eraseP_cons, hb, cond_true, ← hx]
      exact h.1
    · have hb : (x.id == s) = false := beq_eq_false_iff_ne.2 hx
      rw [List.eraseP_cons, hb, cond_false]
      simp only [List.map_cons, List.mem_cons, not_or]
      exact ⟨fun hc => hx hc.symm, ih h.2⟩

theorem fitTasksInBlock_ids_from_eligible (elig : List Task) (rem : Int) (pool : List Task) :
    ∀ id ∈ (fitTasksInBlock elig rem pool).1, id ∈ elig.map Task.id := by
  induction elig generalizing rem pool with
  | nil => intro id hid; cases hid
  | cons t rest ih =>
    intro id hid
    simp only [List.map_cons, List.mem_cons]
    by_cases h1 : taskDuration t ≤ rem
    · by_cases h2 : rem - taskDuration t < 15
      · simp only [fitTasksInBlock, if_pos h1, if_pos h2, List.mem_singleton] at hid
        exact Or.inl hid
      · simp only [fitTasksInBlock, if_pos h1, if_neg h2, List.mem_cons] at hid
        rcases hid with hid | hid
        · exact Or.inl hid
        · exact Or.inr (ih _ _ id hid)
    · by_cases h3 : rem < 15
      · simp only [fitTasksInBlock, if_neg h1, if_pos h3] at hid
        cases hid
      · simp only [fitTasksInBlock, if_neg h1, if_neg h3] at hid
        exact Or.inr (ih _ _ id hid)

theorem fitTasksInBlock_ids_nodup (elig : List Task) (rem : Int) (pool : List Task)
    (h : (elig.map Task.id).Nodup) :
    (fitTasksInBlock elig rem pool).1.Nodup := by
  induction elig generalizing rem pool with
  | nil => exact List.nodup_nil
  | cons t rest ih =>
    simp only [List.map_cons, List.nodup_cons] at h
    by_cases h1 : taskDuration t ≤ rem
    · by_cases h2 : rem - taskDuration t < 15
      · simp only [fitTasksInBlock, if_pos h1, if_pos h2]
        simp
      · simp only [fitTasksInBlock, if_pos h1, if_neg h2]
        exact List.nodup_cons.2
          ⟨fun hc => h.1 (fitTasksInBlock_ids_from_eligible _ _ _ _ hc), ih _ _ h.2⟩
    · by_cases h3 : rem < 15
      · simp only [fitTasksInBlock, if_neg h1, if_pos h3]
        exact List.nodup_nil
      · simp only [fitTasksInBlock, if_neg h1, if_neg h3]
        exact ih _ _ h.2

theorem fitTasksInBlock_removed (elig : List Task) (rem : Int) (pool : List Task)
    (h : (pool.map Task.id).Nodup) :
    ∀ id ∈ (fitTasksInBlock elig rem pool).1,
      id ∉ (fitTasksInBlock elig rem pool).2.map Task.id := by
  induction elig generalizing rem pool with
  | nil => intro id hid; cases hid
  | cons t rest ih =>
    intro id hid
    by_cases h1 : taskDuration t ≤ rem
    · by_cases h2 : rem - taskDuration t < 15
      · simp only [fitTasksInBlock, if_pos h1, if_pos h2, List.mem_singleton] at hid ⊢
        subst hid
        exact eraseP_id_not_mem pool t.id h
      · have hnodup' : ((pool.eraseP (fun x => x.id == t.id)).map Task.id).Nodup :=
          (List.Sublist.map Task.id (List.eraseP_sublist pool)).nodup h
        simp only [fitTasksInBlock, if_pos h1, if_neg h2, List.mem_cons] at hid ⊢
        rcases hid with hid | hid
        · subst hid
          intro hc
          exact eraseP_id_not_mem pool t.id h
            (((fitTasksInBlock_pool_sublist rest _ _).map Task.id).mem hc)
        · exact ih _ _ hnodup' id hid
    · by_cases h3 : rem < 15
      · simp only [fitTasksInBlock, if_neg h1, if_pos h3] at hid
        cases hid
      · simp only [fitTasksInBlock, if_neg h1, if_neg h3] at hid ⊢
        exact ih _ _ h id hid

theorem eligibleFor_mem_pool (b : TimeBlock) (pool : List Task) :
    ∀ x ∈ eligibleFor b pool, x ∈ pool := by
  intro x hx
  unfold eligibleFor at hx
  split at hx
  · rcases List.mem_append.1 hx with hx | hx
    · exact (List.mem_filter.1 hx).1
    · exact (List.mem_filter.1 hx).1
  · exact (List.mem_filter.1 hx).1

theorem eligibleFor_ids_nodup (b : TimeBlock) (pool : List Task)
    (h : (pool.map Task.id).Nodup) :
    ((eligibleFor b pool).map Task.id).Nodup := by
  unfold eligibleFor
  split
  · rw [List.map_append]
    refine List.Nodup.append ?_ ?_ ?_
    · exact (List.Sublist.map Task.id (List.filter_sublist pool)).nodup h
    · exact (List.Sublist.map Task.id (List.filter_sublist pool)).nodup h
    · intro a ha hb
      rcases List.mem_map.1 ha with ⟨x, hx, rfl⟩
      rcases List.mem_map.1 hb with ⟨y, hy, hxy⟩
      have hxp := (List.mem_filter.1 hx).1
      have hyp := (List.mem_filter.1 hy).1
      have hxw := of_decide_eq_true (List.mem_filter.1 hx).2
      have hyw := of_decide_eq_true (List.mem_filter.1 hy).2
      have hyx : y = x := List.inj_on_of_nodup_map h hyp hxp hxy
      rw [hyx, hxw] at hyw
      cases hyw
  · exact (List.Sublist.map Task.id (List.filter_sublist pool)).nodup h

theorem assignInBlock_pool_sublist (b : TimeBlock) (pool : List Task) :
    (assignInBlock b pool).2.Sublist pool := by
  unfold assignInBlock
  split
  · exact List.Sublist.refl _
  · split
    · exact List.Sublist.refl _
    · exact fitTasksInBlock_pool_sublist _ _ _

theorem assignInBlock_ids_in_pool (b : TimeBlock) (pool : List Task) :
    ∀ id ∈ (assignInBlock b pool).1, id ∈ pool.map Task.id := by
  unfold assignInBlock
  split
  · intro id hid; cases hid
  · split
    · intro id hid; cases hid
    · intro id hid
      rcases List.mem_map.1 (fitTasksInBlock_ids_from_eligible _ _ _ id hid)
        with ⟨x, hx, rfl⟩
      exact List.mem_map_of_mem Task.id (eligibleFor_mem_pool b pool x hx)

theorem assignInBlock_ids_nodup (b : TimeBlock) (pool : List Task)
    (h : (pool.map Task.id).Nodup) :
    (assignInBlock b pool).1.Nodup := by
  unfold assignInBlock
  split
  · exact List.nodup_nil
  · split
    · exact List.nodup_nil
    · exact fitTasksInBlock_ids_nodup _ _ _ (eligibleFor_ids_nodup b pool h)

theorem assignInBlock_removed (b : TimeBlock) (pool : List Task)
    (h : (pool.map Task.id).Nodup) :
    ∀ id ∈ (assignInBlock b pool).1, id ∉ (assignInBlock b pool).2.map Task.id := by
  unfold assignInBlock
  split
  · intro id hid; cases hid
  · split
    · intro id hid; cases hid
    · exact fitTasksInBlock_removed _ _ _ h

theorem assignLoop_ids_in_pool (blocks : List TimeBlock) (pool : List Task) :
    ∀ id ∈ assignLoop blocks pool, id ∈ pool.map Task.id := by
  induction blocks generalizing pool with
  | nil => intro id hid; cases hid
  | cons b bs ih =>
    intro id hid
    rcases List.mem_append.1 hid with hid | hid
    · exact assignInBlock_ids_in_pool b pool id hid
    · exact ((assignInBlock_pool_sublist b pool).map Task.id).mem (ih _ id hid)

theorem assignTasksToBlocks_nodup (blocks : List TimeBlock) (tasks : List Task)
    (h : (tasks.map Task.id).Nodup) :
    (assignTasksToBlocks blocks tasks).Nodup := by
  show (assignLoop blocks tasks).Nodup
  induction blocks generalizing tasks with
  | nil => exact List.nodup_nil
  | cons b bs ih =>
    refine List.Nodup.append (assignInBlock_ids_nodup b tasks h)
      (ih _ (((assignInBlock_pool_sublist b tasks).map Task.id).nodup h)) ?_
    intro a ha hb
    exact assignInBlock_removed b tasks h a ha (assignLoop_ids_in_pool bs _ a hb)

/-- C4: with distinct task identifiers in the pool, each identifier appears
in at most one Placement: the output id list of `assignTasksToBlocks` has no
duplicates (a placed task is removed from the candidate pool and can never be
placed again in the same or a later block). -/
theorem no_task_placed_twice (blocks : List TimeBlock) (tasks : List Task)
    (h : (tasks.map Task.id).Nodup) :
    (assignTasksToBlocks blocks tasks).Nodup :=
  assignTasksToBlocks_nodup blocks tasks h

/-- C4 witness: the distinct-identifier hypothesis and the conclusion hold on
the Scenario C input. -/
theorem no_task_placed_twice_witness :
    (([{ id := "t1", context := TaskContext.PERSONAL, priority := 9,
          estimatedDuration := some 45 },
        { id := "t2", context := TaskContext.PERSONAL, priority := 5,
          estimatedDuration := some 30 }] : List Task).map Task.id).Nodup ∧
      (assignTasksToBlocks
          [{ start := 0, endT := 60, context := BlockContext.FREE }]
          [{ id := "t1", context := TaskContext.PERSONAL, priority := 9,
              estimatedDuration := some 45 },
            { id := "t2", context := TaskContext.PERSONAL, priority := 5,
              estimatedDuration := some 30 }]).Nodup :=
  ⟨by decide, no_task_placed_twice _ _ (by decide)⟩

/-- C1: Scenario C of the design document.  One `OPEN` (`FREE`) block of 60
minutes and candidates [priority 9, 45 min, PERSONAL] then [priority 5,
30 min, PERSONAL]: the first task is placed, leaving exactly 15 minutes,
which is not `< 15`, so the second task is still attempted; its 30 minutes
exceed the remaining 15, so it is not placed and stays in the pool. -/
theorem scenario_c_first_task_only :
    assignTasksToBlocks
        [{ start := 0, endT := 60, context := BlockContext.FREE }]
        [{ id := "t1", context := TaskContext.PERSONAL, priority := 9,
            estimatedDuration := some 45 },
          { id := "t2", context := TaskContext.PERSONAL, priority := 5,
            estimatedDuration := some 30 }]
      = ["t1"] ∧
    assignInBlock { start := 0, endT := 60, context := BlockContext.FREE }
        [{ id := "t1", context := TaskContext.PERSONAL, priority := 9,
            estimatedDuration := some 45 },
          { id := "t2", context := TaskContext.PERSONAL, priority := 5,
            estimatedDuration := some 30 }]
      = (["t1"],
          [{ id := "t2", context := TaskContext.PERSONAL, priority := 5,
              estimatedDuration := some 30 }]) := by
  constructor <;> rfl

/-- Output record of the budget suggester (`TaskSuggestion` in the source). -/
structure TaskSuggestion where
  id : String
  content : String
  estimatedDuration : Option Int
  priority : Int
  type : Option String
  context : TaskContext
  deadline : Option Int
  reasoning : String
deriving DecidableEq, Repr

/-- `Math.ceil(a / b)` for integer `a` and positive integer `b`. -/
def jsCeilDiv (a b : Int) : Int := -((-a).fdiv b)

/-- Priority observations of `generateReasoning`:
`priority >= 8` → "Haute priorité", else `priority >= 5` → "Priorité moyenne". -/
def priorityReasons (t : Task) : List String :=
  if t.priority ≥ 8 then ["Haute priorité"]
  else if t.priority ≥ 5 then ["Priorité moyenne"]
  else []

/-- Deadline observations of `generateReasoning`: days until the deadline are
`Math.ceil((deadline - now) / day)`; `≤ 1` → today/tomorrow, else `≤ 3` →
soon.  `now` stands for the ambient `Date.now()`. -/
def deadlineReasons (now : Int) (t : Task) : List String :=
  match t.deadline with
  | none => []
  | some dl =>
    if jsCeilDiv (dl - now) 1440 ≤ 1 then ["Deadline aujourd\x27hui/demain"]
    else if jsCeilDiv (dl - now) 1440 ≤ 3 then ["Deadline proche"]
    else []

/-- Type observations of `generateReasoning`: `QUICK`, else `DEEP_WORK` with a
total budget of at least 60 minutes. -/
def typeReasons (t : Task) (totalTime : Int) : List String :=
  if t.type = some "QUICK" then ["Tâche rapide"]
  else if t.type = some "DEEP_WORK" ∧ totalTime ≥ 60 then ["Travail de fond"]
  else []

/-- Duration observations of `generateReasoning`: `duration <= totalTime * 0.5`
(rendered exactly as `2 * duration ≤ totalTime`) → "fits well", **else**
`duration === remainingTime` → "fills the remaining time exactly". -/
def durationReasons (t : Task) (remainingTime totalTime : Int) : List String :=
  if 2 * taskDuration t ≤ totalTime then
    ["S\x27intègre bien (" ++ toString (taskDuration t) ++ "min)"]
  else if taskDuration t = remainingTime then
    ["Remplit parfaitement le temps restant"]
  else []

/-- The `reasons` array built by `generateReasoning`, in source push order. -/
def reasonsList (now : Int) (t : Task) (remainingTime totalTime : Int) : List String :=
  priorityReasons t ++ deadlineReasons now t ++ typeReasons t totalTime
    ++ durationReasons t remainingTime totalTime

/-- `generateReasoning(task, remainingTime, totalTime)`: joins the collected
observations, or falls back to "Tâche disponible" when there are none. -/
def generateReasoning (now : Int) (t : Task) (remainingTime totalTime : Int) : String :=
  if reasonsList now t remainingTime totalTime = [] then "Tâche disponible"
  else String.intercalate ", " (reasonsList now t remainingTime totalTime)

/-- Builds the suggestion record pushed by `generateSuggestions`. -/
def mkSuggestion (t : Task) (reason : String) : TaskSuggestion :=
  { id := t.id, content := t.content, estimatedDuration := t.estimatedDuration,
    priority := t.priority, type := t.type, context := t.context,
    deadline := t.deadline, reasoning := reason }

/-- The candidate filter of `generateSuggestions`: tasks whose duration
(30-minute default applied) is at most the whole budget. -/
def fittingTasks (tasks : List Task) (availableMinutes : Int) : List Task :=
  tasks.filter (fun t => decide (taskDuration t ≤ availableMinutes))

/-- The greedy selection loop of `generateSuggestions`: accept a task when its
duration fits the remaining budget, and after every iteration stop once
`remainingTime < 5` or five suggestions have been accepted. -/
def suggestLoop (now availableMinutes : Int) :
    List Task → Int → Nat → List TaskSuggestion
  | [], _, _ => []
  | t :: rest, remaining, count =>
    if taskDuration t ≤ remaining then
      if remaining - taskDuration t < 5 ∨ count + 1 ≥ 5 then
        [mkSuggestion t (generateReasoning now t remaining availableMinutes)]
      else
        mkSuggestion t (generateReasoning now t remaining availableMinutes)
          :: suggestLoop now availableMinutes rest (remaining - taskDuration t) (count + 1)
    else
      if remaining < 5 ∨ count ≥ 5 then []
      else suggestLoop now availableMinutes rest remaining count

/-- `generateSuggestions(tasks, availableMinutes)`; `now` stands for the
ambient `Date.now()` read inside `generateReasoning`. -/
def generateSuggestions (now : Int) (tasks : List Task) (availableMinutes : Int) :
    List TaskSuggestion :=
  suggestLoop now availableMinutes (fittingTasks tasks availableMinutes) availableMinutes 0

/-- `suggestion.estimatedDuration || 30`, as the route sums the result. -/
def sugDuration (s : TaskSuggestion) : Int :=
  match s.estimatedDuration with
  | none => 30
  | some d => if d = 0 then 30 else d

theorem sugDuration_mk (t : Task) (r : String) :
    sugDuration (mkSuggestion t r) = taskDuration t := rfl

theorem suggestLoop_length_le (now a : Int) (l : List Task) (rem : Int) (count : Nat)
    (hc : count ≤ 4) : (suggestLoop now a l rem count).length ≤ 5 - count := by
  induction l generalizing rem count with
  | nil => simp [suggestLoop]
  | cons t rest ih =>
    by_cases h1 : taskDuration t ≤ rem
    · by_cases h2 : rem - taskDuration t < 5 ∨ count + 1 ≥ 5
      · simp only [suggestLoop, if_pos h1, if_pos h2, List.length_singleton]
        omega
      · simp only [suggestLoop, if_pos h1, if_neg h2, List.length_cons]
        have hc' : count + 1 ≤ 4 := by omega
        have := ih (rem - taskDuration t) (count + 1) hc'
        omega
    · by_cases h3 : rem < 5 ∨ count ≥ 5
      · simp only [suggestLoop, if_neg h1, if_pos h3, List.length_nil]
        omega
      · simp only [suggestLoop, if_neg h1, if_neg h3]
        exact ih rem count hc

theorem suggestLoop_sum_le (now a : Int) (l : List Task) (rem : Int) (count : Nat)
    (h : 0 ≤ rem) : ((suggestLoop now a l rem count).map sugDuration).sum ≤ rem := by
  induction l generalizing rem count with
  | nil => simp [suggestLoop, h]
  | cons t rest ih =>
    by_cases h1 : taskDuration t ≤ rem
    · by_cases h2 : rem - taskDuration t < 5 ∨ count + 1 ≥ 5
      · simp only [suggestLoop, if_pos h1, if_pos h2, List.map_cons, List.map_nil,
          List.sum_cons, List.sum_nil, sugDuration_mk]
        omega
      · simp only [suggestLoop, if_pos h1, if_neg h2, List.map_cons, List.sum_cons,
          sugDuration_mk]
        have := ih (rem - taskDuration t) (count + 1) (by omega)
        omega
    · by_cases h3 : rem < 5 ∨ count ≥ 5
      · simp only [suggestLoop, if_neg h1, if_pos h3, List.map_nil, List.sum_nil]
        exact h
      · simp only [suggestLoop, if_neg h1, if_neg h3]
        exact ih rem count h

/-- C5: for a budget in `[5, 480]`, the budget suggester returns at most five
suggestions and the selected durations (30-minute default applied) sum to at
most `availableMinutes`. -/
theorem budget_suggester_bounds (now : Int) (tasks : List Task) (a : Int)
    (h5 : 5 ≤ a) (h480 : a ≤ 480) :
    (generateSuggestions now tasks a).length ≤ 5 ∧
      ((generateSuggestions now tasks a).map sugDuration).sum ≤ a := by
  constructor
  · have := suggestLoop_length_le now a (fittingTasks tasks a) a 0 (by omega)
    simpa [generateSuggestions] using this
  · exact suggestLoop_sum_le now a (fittingTasks tasks a) a 0 (by omega)

/-- C5 witness: the bounds instantiated on a 30-minute budget with one
20-minute candidate. -/
theorem budget_suggester_bounds_witness :
    (5 : Int) ≤ 30 ∧ (30 : Int) ≤ 480 ∧
      ((generateSuggestions 0
            [{ id := "s1", context := TaskContext.PERSONAL,
                estimatedDuration := some 20 }] 30).length ≤ 5 ∧
        ((generateSuggestions 0
              [{ id := "s1", context := TaskContext.PERSONAL,
                  estimatedDuration := some 20 }] 30).map sugDuration).sum ≤ 30) :=
  ⟨by decide, by decide,
    budget_suggester_bounds 0
      [{ id := "s1", context := TaskContext.PERSONAL, estimatedDuration := some 20 }]
      30 (by decide) (by decide)⟩

/-- The selection loop of `generateSuggestions` stripped of the justification
strings: it records only the accepted ids, showing that the reasoning text
plays no part in which tasks are selected. -/
def selectLoop : List Task → Int → Nat → List String
  | [], _, _ => []
  | t :: rest, remaining, count =>
    if taskDuration t ≤ remaining then
      if remaining - taskDuration t < 5 ∨ count + 1 ≥ 5 then [t.id]
      else t.id :: selectLoop rest (remaining - taskDuration t) (count + 1)
    else
      if remaining < 5 ∨ count ≥ 5 then []
      else selectLoop rest remaining count

/-- Reasoning-free id selection of the budget suggester. -/
def selectedIds (tasks : List Task) (availableMinutes : Int) : List String :=
  selectLoop (fittingTasks tasks availableMinutes) availableMinutes 0

theorem suggestLoop_map_id (now a : Int) (l : List Task) (rem : Int) (count : Nat) :
    (suggestLoop now a l rem count).map TaskSuggestion.id = selectLoop l rem count := by
  induction l generalizing rem count with
  | nil => rfl
  | cons t rest ih =>
    by_cases h1 : taskDuration t ≤ rem
    · by_cases h2 : rem - taskDuration t < 5 ∨ count + 1 ≥ 5
      · simp only [suggestLoop, selectLoop, if_pos h1, if_pos h2]
        rfl
      · simp only [suggestLoop, selectLoop, if_pos h1, if_neg h2, List.map_cons, ih]
        rfl
    · by_cases h3 : rem < 5 ∨ count ≥ 5
      · simp only [suggestLoop, selectLoop, if_neg h1, if_pos h3]
        rfl
      · simp only [suggestLoop, selectLoop, if_neg h1, if_neg h3]
        exact ih _ _

theorem fills_ne_fits (x y : String) :
    ("Remplit parfaitement le temps restant" : String)
      ≠ ("S\x27intègre bien (" ++ x) ++ y := by
  intro h
  have h2 : (("Remplit parfaitement le temps restant" : String).data).head?
      = ((("S\x27intègre bien (" ++ x) ++ y).data).head? :=
    congrArg (fun s => s.data.head?) h
  rw [String.data_append, String.data_append] at h2
  have hL : (("Remplit parfaitement le temps restant" : String).data).head?
      = some 'R' := rfl
  have hR : ((("S\x27intègre bien (" : String).data ++ x.data) ++ y.data).head?
      = some 'S' := rfl
  rw [hL, hR] at h2
  exact absurd h2 (by decide)

theorem fills_not_in_priority (t : Task) :
    "Remplit parfaitement le temps restant" ∉ priorityReasons t := by
  unfold priorityReasons
  split
  · simp
  · split
    · simp
    · simp

theorem fills_not_in_deadline (now : Int) (t : Task) :
    "Remplit parfaitement le temps restant" ∉ deadlineReasons now t := by
  unfold deadlineReasons
  rcases t.deadline with _ | dl
  · simp
  · split
    · simp
    · split
      · simp
      · simp

theorem fills_not_in_type (t : Task) (total : Int) :
    "Remplit parfaitement le temps restant" ∉ typeReasons t total := by
  unfold typeReasons
  split
  · simp
  · split
    · simp
    · simp

theorem fills_only_in_else_branch (now : Int) (t : Task) (rem total : Int)
    (h : "Remplit parfaitement le temps restant" ∈ reasonsList now t rem total) :
    ¬(2 * taskDuration t ≤ total) ∧ taskDuration t = rem := by
  unfold reasonsList at h
  rcases List.mem_append.1 h with h | hdu
  · rcases List.mem_append.1 h with h | hty
    · rcases List.mem_append.1 h with hp | hd
      · exact absurd hp (fills_not_in_priority t)
      · exact absurd hd (fills_not_in_deadline now t)
    · exact absurd hty (fills_not_in_type t total)
  · unfold durationReasons at hdu
    by_cases c1 : 2 * taskDuration t ≤ total
    · rw [if_pos c1] at hdu
      exact absurd (List.mem_singleton.1 hdu) (fills_ne_fits _ _)
    · rw [if_neg c1] at hdu
      by_cases c2 : taskDuration t = rem
      · exact ⟨c1, c2⟩
      · rw [if_neg c2] at hdu
        cases hdu

/-- A 20-minute low-priority personal task, used to exercise the duration
branch of `generateReasoning`. -/
def reasoningTask20 : Task :=
  { id := "c9", context := TaskContext.PERSONAL, priority := 1,
    estimatedDuration := some 20 }

/-- A 25-minute low-priority personal task, used to exercise the else branch
of the duration reasoning. -/
def reasoningTask25 : Task :=
  { id := "c9w", context := TaskContext.PERSONAL, priority := 1,
    estimatedDuration := some 25 }

/-- C9 counterexample: a selected task whose duration is at most half the
total budget *and* exactly equals the remaining time (duration 20, remaining
20, total 60) carries only the "fits well" observation; "fills the remaining
time exactly" does not appear, because the source's duration reasoning is an
`if`/`else if` chain, not independent concatenable observations. -/
theorem fits_and_fills_never_together :
    2 * taskDuration reasoningTask20 ≤ 60 ∧
      taskDuration reasoningTask20 = 20 ∧
      reasonsList 0 reasoningTask20 20 60 = ["S\x27intègre bien (20min)"] ∧
      "Remplit parfaitement le temps restant" ∉ reasonsList 0 reasoningTask20 20 60 :=
  ⟨by decide, by decide, by decide, by decide⟩

/-- C9 (amended): the priority, deadline, type and duration observation groups
are concatenable in that order, but within the duration group "fits well"
takes precedence: "fills the remaining time exactly" appears only when the
duration exceeds half the total budget and equals the remaining time at the
moment of selection, so the two can never appear together; and the
justification never affects which tasks are selected (the id projection of
the output equals the reasoning-free selection). -/
theorem justification_observations (now : Int) (t : Task) (rem total : Int) :
    reasonsList now t rem total
        = priorityReasons t ++ deadlineReasons now t ++ typeReasons t total
            ++ durationReasons t rem total ∧
      ("Remplit parfaitement le temps restant" ∈ reasonsList now t rem total →
        ¬(2 * taskDuration t ≤ total) ∧ taskDuration t = rem) ∧
      ∀ (tasks : List Task) (a : Int),
        (generateSuggestions now tasks a).map TaskSuggestion.id = selectedIds tasks a := by
  refine ⟨rfl, fills_only_in_else_branch now t rem total, ?_⟩
  intro tasks a
  exact suggestLoop_map_id now a (fittingTasks tasks a) a 0

/-- C9 witness: the implication of the amended theorem discharged on a task
whose duration (25) exceeds half the 40-minute budget and equals the
remaining time. -/
theorem justification_observations_witness :
    ¬(2 * taskDuration reasoningTask25 ≤ 40) ∧ taskDuration reasoningTask25 = 25 :=
  (justification_observations 0 reasoningTask25 25 40).2.1 (by decide)

/-- `TimeSlot` of the free-time detector: `{start, end, durationMinutes}`. -/
structure TimeSlot where
  start : Int
  endT : Int
  durationMinutes : Int
deriving DecidableEq, Repr

/-- `FreeTimeDetector.suggestTasksForSlots`: for each slot, the tasks whose
`estimatedDuration` is truthy (neither `null` nor `0`) and at most the slot's
`durationMinutes`.  A task with no estimated duration is filtered out by the
truthiness check, not given the 30-minute default. -/
def suggestTasksForSlots (freeSlots : List TimeSlot) (tasks : List Task) :
    List (TimeSlot × List Task) :=
  freeSlots.map (fun slot =>
    (slot, tasks.filter (fun task =>
      match task.estimatedDuration with
      | none => false
      | some d => if d = 0 then false else decide (d ≤ slot.durationMinutes))))

/-- Rewrites a task with absent `estimatedDuration` to an explicit 30. -/
def durNoneTo30 (t : Task) : Task :=
  match t.estimatedDuration with
  | none => { t with estimatedDuration := some 30 }
  | some _ => t

/-- Rewrites a task with `estimatedDuration` 0 to an explicit 30. -/
def durZeroTo30 (t : Task) : Task :=
  if t.estimatedDuration = some 0 then { t with estimatedDuration := some 30 } else t

theorem durNoneTo30_id (t : Task) : (durNoneTo30 t).id = t.id := by
  unfold durNoneTo30; split <;> rfl

theorem durNoneTo30_context (t : Task) : (durNoneTo30 t).context = t.context := by
  unfold durNoneTo30; split <;> rfl

theorem durNoneTo30_duration (t : Task) : taskDuration (durNoneTo30 t) = taskDuration t := by
  unfold durNoneTo30 taskDuration
  rcases h : t.estimatedDuration with _ | d <;> simp [h]

theorem durZeroTo30_id (t : Task) : (durZeroTo30 t).id = t.id := by
  unfold durZeroTo30; split <;> rfl

theorem durZeroTo30_context (t : Task) : (durZeroTo30 t).context = t.context := by
  unfold durZeroTo30; split <;> rfl

theorem durZeroTo30_duration (t : Task) : taskDuration (durZeroTo30 t) = taskDuration t := by
  unfold durZeroTo30 taskDuration
  by_cases h : t.estimatedDuration = some 0
  · simp [h]
  · simp [h]

theorem eraseP_map_id (g : Task → Task) (hid : ∀ t, (g t).id = t.id)
    (pool : List Task) (s : String) :
    (pool.map g).eraseP (fun x => x.id == s) = (pool.eraseP (fun x => x.id == s)).map g := by
  induction pool with
  | nil => rfl
  | cons x xs ih =>
    cases hxs : (x.id == s) with
    | true => simp [List.eraseP_cons, hid, hxs]
    | false => simp [List.eraseP_cons, hid, hxs, ih]

theorem fitTasksInBlock_map (g : Task → Task) (hid : ∀ t, (g t).id = t.id)
    (hdur : ∀ t, taskDuration (g t) = taskDuration t) :
    ∀ (elig : List Task) (rem : Int) (pool : List Task),
      fitTasksInBlock (elig.map g) rem (pool.map g)
        = ((fitTasksInBlock elig rem pool).1, (fitTasksInBlock elig rem pool).2.map g) := by
  intro elig
  induction elig with
  | nil => intro rem pool; rfl
  | cons t rest ih =>
    intro rem pool
    by_cases h1 : taskDuration t ≤ rem
    · by_cases h2 : rem - taskDuration t < 15
      · simp only [List.map_cons, fitTasksInBlock, hdur, if_pos h1, if_pos h2, hid,
          eraseP_map_id g hid]
      · simp only [List.map_cons, fitTasksInBlock, hdur, if_pos h1, if_neg h2, hid,
          eraseP_map_id g hid, ih]
    · by_cases h3 : rem < 15
      · simp only [List.map_cons, fitTasksInBlock, hdur, if_neg h1, if_pos h3]
      · simp only [List.map_cons, fitTasksInBlock, hdur, if_neg h1, if_neg h3, ih]

theorem filter_map_comm (g : Task → Task) (p : Task → Bool) (hp : ∀ t, p (g t) = p t)
    (pool : List Task) :
    (pool.map g).filter p = (pool.filter p).map g := by
  rw [List.filter_map]
  exact congrArg (List.map g) (List.filter_congr (fun t _ => hp t))

theorem eligibleFor_map (g : Task → Task) (hctx : ∀ t, (g t).context = t.context)
    (b : TimeBlock) (pool : List Task) :
    eligibleFor b (pool.map g) = (eligibleFor b pool).map g := by
  unfold eligibleFor
  split
  · rw [filter_map_comm g _ (fun t => by simp [hctx]),
      filter_map_comm g _ (fun t => by simp [hctx]), List.map_append]
  · rw [filter_map_comm g _ (fun t => by simp [hctx])]

theorem assignInBlock_map (g : Task → Task) (hid : ∀ t, (g t).id = t.id)
    (hctx : ∀ t, (g t).context = t.context)
    (hdur : ∀ t, taskDuration (g t) = taskDuration t) (b : TimeBlock) (pool : List Task) :
    assignInBlock b (pool.map g)
      = ((assignInBlock b pool).1, (assignInBlock b pool).2.map g) := by
  unfold assignInBlock
  split
  · rfl
  · split
    · rfl
    · rw [eligibleFor_map g hctx, fitTasksInBlock_map g hid hdur]

theorem assignLoop_map (g : Task → Task) (hid : ∀ t, (g t).id = t.id)
    (hctx : ∀ t, (g t).context = t.context)
    (hdur : ∀ t, taskDuration (g t) = taskDuration t)
    (blocks : List TimeBlock) (pool : List Task) :
    assignLoop blocks (pool.map g) = assignLoop blocks pool := by
  induction blocks generalizing pool with
  | nil => rfl
  | cons b bs ih =>
    simp only [assignLoop, assignInBlock_map g hid hctx hdur, ih]

theorem fittingTasks_map (g : Task → Task)
    (hdur : ∀ t, taskDuration (g t) = taskDuration t) (tasks : List Task) (a : Int) :
    fittingTasks (tasks.map g) a = (fittingTasks tasks a).map g := by
  unfold fittingTasks
  rw [filter_map_comm g _ (fun t => by simp [hdur])]

theorem selectLoop_map (g : Task → Task) (hid : ∀ t, (g t).id = t.id)
    (hdur : ∀ t, taskDuration (g t) = taskDuration t) :
    ∀ (l : List Task) (rem : Int) (count : Nat),
      selectLoop (l.map g) rem count = selectLoop l rem count := by
  intro l
  induction l with
  | nil => intro rem count; rfl
  | cons t rest ih =>
    intro rem count
    by_cases h1 : taskDuration t ≤ rem
    · by_cases h2 : rem - taskDuration t < 5 ∨ count + 1 ≥ 5
      · simp only [List.map_cons, selectLoop, hdur, if_pos h1, if_pos h2, hid]
      · simp only [List.map_cons, selectLoop, hdur, if_pos h1, if_neg h2, hid, ih]
    · by_cases h3 : rem < 5 ∨ count ≥ 5
      · simp only [List.map_cons, selectLoop, hdur, if_neg h1, if_pos h3]
      · simp only [List.map_cons, selectLoop, hdur, if_neg h1, if_neg h3, ih]

theorem generateSuggestions_map_id (g : Task → Task) (hid : ∀ t, (g t).id = t.id)
    (hdur : ∀ t, taskDuration (g t) = taskDuration t)
    (now : Int) (tasks : List Task) (a : Int) :
    (generateSuggestions now (tasks.map g) a).map TaskSuggestion.id
      = (generateSuggestions now tasks a).map TaskSuggestion.id := by
  unfold generateSuggestions
  rw [suggestLoop_map_id, suggestLoop_map_id, fittingTasks_map g hdur,
    selectLoop_map g hid hdur]

/-- A task with no estimated duration, for exercising the slot helper. -/
def noDurationTask : Task :=
  { id := "nd", context := TaskContext.PERSONAL, estimatedDuration := none }

/-- A 60-minute free slot. -/
def slot60 : TimeSlot := { start := 0, endT := 60, durationMinutes := 60 }

/-- C8 counterexample: a task with no estimated duration has default duration
30, and 30 minutes fit a 60-minute slot, yet `suggestTasksForSlots` reports
no suitable task for that slot — the slot-matching helper excludes
no-duration tasks instead of treating them as 30 minutes. -/
theorem slot_helper_drops_no_duration_tasks :
    taskDuration noDurationTask = 30 ∧ (30 : Int) ≤ slot60.durationMinutes ∧
      suggestTasksForSlots [slot60] [noDurationTask] = [(slot60, [])] :=
  ⟨rfl, by decide, rfl⟩

/-- C8 (amended): the block allocator and the budget suggester (both its
candidate filter and its fit check) treat a task with no estimated duration
exactly as one of 30 minutes — rewriting absent durations to an explicit 30
changes neither the allocator's placements nor the suggester's selected
ids — but the slot-matching helper does not: its truthiness filter excludes
every task whose estimated duration is absent (or zero). -/
theorem default_duration_components (blocks : List TimeBlock) (tasks : List Task)
    (now : Int) (a : Int) :
    (∀ t : Task, t.estimatedDuration = none → taskDuration t = 30) ∧
      assignTasksToBlocks blocks (tasks.map durNoneTo30) = assignTasksToBlocks blocks tasks ∧
      (generateSuggestions now (tasks.map durNoneTo30) a).map TaskSuggestion.id
        = (generateSuggestions now tasks a).map TaskSuggestion.id ∧
      ∀ (slots : List TimeSlot) (p : TimeSlot × List Task),
        p ∈ suggestTasksForSlots slots tasks →
          ∀ t ∈ p.2, t.estimatedDuration ≠ none ∧ t.estimatedDuration ≠ some 0 := by
  refine ⟨?_, ?_, ?_, ?_⟩
  · intro t h
    unfold taskDuration
    rw [h]
  · exact assignLoop_map durNoneTo30 durNoneTo30_id durNoneTo30_context
      durNoneTo30_duration blocks tasks
  · exact generateSuggestions_map_id durNoneTo30 durNoneTo30_id durNoneTo30_duration
      now tasks a
  · intro slots p hp t ht
    rcases List.mem_map.1 hp with ⟨slot, _hslot, rfl⟩
    have hf := (List.mem_filter.1 ht).2
    constructor
    · intro hc
      rw [hc] at hf
      simp at hf
    · intro hc
      rw [hc] at hf
      simp at hf

/-- A 20-minute personal task that fits `slot60`. -/
def fittingTask20 : Task :=
  { id := "w8", context := TaskContext.PERSONAL, estimatedDuration := some 20 }

/-- C8 witness: the slot-helper conjunct discharged on a slot that does
contain a suitable task (duration 20 in a 60-minute slot). -/
theorem default_duration_components_witness :
    fittingTask20.estimatedDuration ≠ none ∧
      fittingTask20.estimatedDuration ≠ some 0 :=
  (default_duration_components [] [fittingTask20] 0 30).2.2.2
    [slot60] (slot60, [fittingTask20]) (by decide) fittingTask20 (by decide)

/-- C10: the falsy coalescing `estimatedDuration || 30` does not distinguish
an explicit 0 from an absent duration: a zero-duration task behaves exactly
like a 30-minute one in the allocator and the suggester (rewriting
zero durations to 30 changes neither placements nor selected ids, and a
placed zero-duration task consumes 30 minutes of capacity), and it is
excluded from the suggestion candidates whenever the budget is below 30. -/
theorem zero_duration_treated_as_30 (blocks : List TimeBlock) (tasks : List Task)
    (now : Int) (a : Int) :
    (∀ t : Task, t.estimatedDuration = some 0 → taskDuration t = 30) ∧
      assignTasksToBlocks blocks (tasks.map durZeroTo30) = assignTasksToBlocks blocks tasks ∧
      (generateSuggestions now (tasks.map durZeroTo30) a).map TaskSuggestion.id
        = (generateSuggestions now tasks a).map TaskSuggestion.id ∧
      (a < 30 → ∀ t ∈ tasks, t.estimatedDuration = some 0 → t ∉ fittingTasks tasks a) := by
  refine ⟨?_, ?_, ?_, ?_⟩
  · intro t h
    unfold taskDuration
    rw [h]
    rfl
  · exact assignLoop_map durZeroTo30 durZeroTo30_id durZeroTo30_context
      durZeroTo30_duration blocks tasks
  · exact generateSuggestions_map_id durZeroTo30 durZeroTo30_id durZeroTo30_duration
      now tasks a
  · intro ha t _ht h0 hc
    have hf := of_decide_eq_true (List.mem_filter.1 hc).2
    have : taskDuration t = 30 := by
      unfold taskDuration
      rw [h0]
      rfl
    rw [this] at hf
    omega

/-- A task with an explicit zero estimated duration. -/
def zeroDurationTask : Task :=
  { id := "z", context := TaskContext.PERSONAL, estimatedDuration := some 0 }

/-- C10 witness: a zero-duration task is not among the candidates for a
20-minute budget. -/
theorem zero_duration_treated_as_30_witness :
    (20 : Int) < 30 ∧ zeroDurationTask ∉ fittingTasks [zeroDurationTask] 20 :=
  ⟨by decide,
    (zero_duration_treated_as_30 [] [zeroDurationTask] 0 20).2.2.2 (by decide)
      zeroDurationTask (by decide) rfl⟩

/-- `CalendarEvent` of the free-time detector: `{start, end, isAllDay, calendarId}`. -/
structure CalEvent where
  start : Int
  endT : Int
  isAllDay : Bool := false
  calendarId : String := ""
deriving DecidableEq, Repr

/-- `CalendarConfig` of the free-time detector.  The optional per-weekday
override map `schedulePerDay?` is modelled as an association list from
weekday name to a (start, end) pair of `"HH:MM"` strings. -/
structure CalendarConfig where
  calendarId : String
  treatAllDayAsSchedule : Bool
  defaultStartTime : String
  defaultEndTime : String
  schedulePerDay : List (String × String × String) := []
deriving DecidableEq, Repr

/-- English weekday names, `long` form, indexed Sunday-first as by
`Date.getDay()`. -/
def weekdayLongNames : List String :=
  ["Sunday", "Monday", "Tuesday", "Wednesday", "Thursday", "Friday", "Saturday"]

/-- English weekday names, `short` form. -/
def weekdayShortNames : List String :=
  ["Sun", "Mon", "Tue", "Wed", "Thu", "Fri", "Sat"]

/-- English weekday names, `narrow` form. -/
def weekdayNarrowNames : List String :=
  ["S", "M", "T", "W", "T", "F", "S"]

/-- Day-of-week index of an instant in minutes since the Unix epoch
(1970-01-01 was a Thursday, index 4). -/
def jsWeekdayIndex (t : Int) : Nat := ((t.fdiv 1440 + 4).emod 7).toNat

/-- `date.toLocaleDateString('en-US', { weekday: fmt })`: ECMA-402 accepts
only `"long"`, `"short"` and `"narrow"` for the `weekday` option and throws a
`RangeError` on any other value — including the `"lowercase"` the source
passes. -/
def jsLocaleWeekday (t : Int) (fmt : String) : Except String String :=
  if fmt = "long" then .ok ((weekdayLongNames.get? (jsWeekdayIndex t)).getD "")
  else if fmt = "short" then .ok ((weekdayShortNames.get? (jsWeekdayIndex t)).getD "")
  else if fmt = "narrow" then .ok ((weekdayNarrowNames.get? (jsWeekdayIndex t)).getD "")
  else .error ("RangeError: Value " ++ fmt ++ " out of range for options property weekday")

/-- `Number()` applied to one digit group of an `"HH:MM"` string (the only
shape the configs carry); non-digit characters would give `NaN` in the
source, rendered 0 here, a case the error path below never reaches. -/
def digitsToInt (cs : List Char) : Int :=
  cs.foldl (fun acc c => acc * 10 + (Int.ofNat c.toNat - 48)) 0

/-- `"HH:MM".split(':')` into the hour and minute digit groups. -/
def splitColon : List Char → List Char × List Char
  | [] => ([], [])
  | c :: rest =>
    if c = ':' then ([], rest)
    else
      let r := splitColon rest
      (c :: r.1, r.2)

/-- Parses an `"HH:MM"` time-of-day string the way the source's
`split(':').map(Number)` destructuring does. -/
def parseHHMM (s : String) : Int × Int :=
  let p := splitColon s.data
  (digitsToInt p.1, digitsToInt p.2)

/-- `FreeTimeDetector.convertAllDayEvent(event, config)`.  A non-all-day
event, or a config without `treatAllDayAsSchedule`, passes through unchanged.
Otherwise the source asks `toLocaleDateString` for the weekday with the
invalid option value `"lowercase"`, which raises `RangeError`; the fallible
outcome is an `Except`.  The (unreachable) success path resolves the
per-weekday override or the default times on the event's own date. -/
def convertAllDayEvent (event : CalEvent) (config : CalendarConfig) :
    Except String (Int × Int) :=
  if !event.isAllDay || !config.treatAllDayAsSchedule then
    .ok (event.start, event.endT)
  else do
    let dayName ← jsLocaleWeekday event.start "lowercase"
    let sched := (List.lookup dayName config.schedulePerDay).getD
      (config.defaultStartTime, config.defaultEndTime)
    let s := parseHHMM sched.1
    let e := parseHHMM sched.2
    let dayBase := event.start.fdiv 1440 * 1440
    pure (dayBase + s.1 * 60 + s.2, dayBase + e.1 * 60 + e.2)

/-- C6: for every whole-day event on a config with expansion enabled, the
expansion does not return 09:00–17:00 — it fails: the source passes the
invalid weekday option `"lowercase"` to `toLocaleDateString`, which throws a
`RangeError` before any schedule lookup, whatever the configured default
times or overrides. -/
theorem whole_day_expansion_always_throws (e : CalEvent) (c : CalendarConfig)
    (hall : e.isAllDay = true) (hexp : c.treatAllDayAsSchedule = true) :
    convertAllDayEvent e c
      = .error "RangeError: Value lowercase out of range for options property weekday" := by
  unfold convertAllDayEvent
  rw [hall, hexp]
  rfl

/-- The Scenario B whole-day event (starting at the epoch midnight). -/
def scenarioBEvent : CalEvent :=
  { start := 0, endT := 1440, isAllDay := true, calendarId := "cal1" }

/-- The Scenario B config: expansion enabled, 09:00–17:00, no overrides. -/
def scenarioBConfig : CalendarConfig :=
  { calendarId := "cal1", treatAllDayAsSchedule := true,
    defaultStartTime := "09:00", defaultEndTime := "17:00" }

/-- C6 witness: the failure evaluated on the Scenario B input. -/
theorem whole_day_expansion_always_throws_witness :
    convertAllDayEvent scenarioBEvent scenarioBConfig
      = .error "RangeError: Value lowercase out of range for options property weekday" :=
  whole_day_expansion_always_throws scenarioBEvent scenarioBConfig rfl rfl

/-- A stored calendar event row as the task-assignment route reads it. -/
structure DbEvent where
  startTime : Int
  endTime : Int
  calendarId : String := ""
  summary : String := ""
deriving DecidableEq, Repr

/-- `haystack.includes(needle)` on char lists: some suffix of the haystack
starts with the needle. -/
def containsSub (pat : List Char) : List Char → Bool
  | [] => List.isPrefixOf pat []
  | c :: rest => List.isPrefixOf pat (c :: rest) || containsSub pat rest

/-- `s.toUpperCase()`; the classifier's markers are ASCII, where the
character-wise upcase agrees with JavaScript. -/
def jsToUpper (s : String) : String := String.mk (s.data.map Char.toUpper)

/-- `s.includes(pat)`. -/
def jsIncludes (s pat : String) : Bool := containsSub pat.data s.data

/-- `classifyEvent(event, calendarMap)`: upcased label-plus-id marker search;
learning markers beat work markers, default `FREE`.  The calendar map built
from `userCalendars` is an association list from calendar id to label. -/
def classifyEvent (event : DbEvent) (calendarMap : List (String × String)) : BlockContext :=
  let calendarLabel := (List.lookup event.calendarId calendarMap).getD ""
  let labelOrId := jsToUpper (calendarLabel ++ " " ++ event.calendarId)
  if jsIncludes labelOrId "HYP" || jsIncludes labelOrId "ROLLAND-BERTRAND"
      || jsIncludes labelOrId "COURS" then
    BlockContext.LEARNING
  else if jsIncludes labelOrId "ALTERNANCE" || jsIncludes labelOrId "TRAVAIL"
      || jsIncludes labelOrId "WORK" then
    BlockContext.WORK
  else
    BlockContext.FREE

/-- Comparator of the source's event sort: ascending `startTime`. -/
def startLE (a b : DbEvent) : Prop := a.startTime ≤ b.startTime

instance : DecidableRel startLE := fun a b => Int.decLe a.startTime b.startTime

instance : IsTotal DbEvent startLE := ⟨fun a b => Int.le_total a.startTime b.startTime⟩

instance : IsTrans DbEvent startLE := ⟨fun _ _ _ => Int.le_trans⟩

/-- The event walk of `analyzeCalendar`: emit a `FREE` block before an event
when the cursor-to-event gap exceeds 15 minutes, then the (classified) event
block itself, moving the cursor to the event's end (unconditionally); after
the last event, emit a trailing `FREE` block when more than 15 minutes remain
up to `endTime`. -/
def buildBlocks (calendarMap : List (String × String)) :
    List DbEvent → Int → Int → List TimeBlock
  | [], currentTime, endTime =>
    if currentTime < endTime ∧ endTime - currentTime > 15 then
      [{ start := currentTime, endT := endTime, context := BlockContext.FREE }]
    else []
  | e :: rest, currentTime, endTime =>
    (if currentTime < e.startTime ∧ e.startTime - currentTime > 15 then
        [{ start := currentTime, endT := e.startTime, context := BlockContext.FREE }]
      else [])
      ++ { start := e.startTime, endT := e.endTime,
            context := classifyEvent e calendarMap,
            eventSummary := some e.summary }
        :: buildBlocks calendarMap rest e.endTime endTime

/-- `analyzeCalendar(events, userCalendars, dayStart, dayEnd)`: the route
passes `dayStart` = today's midnight and `dayEnd` = tomorrow's midnight;
`setHours(8,0,0,0)` on the former gives the 08:00 cursor (`dayStart + 480`)
and `setHours(23,0,0,0)` on the latter gives the 23:00 bound on *that* date
(`dayEnd + 1380`).  Events are sorted by start time (stably, as V8 does). -/
def analyzeCalendar (events : List DbEvent) (userCalendars : List (String × String))
    (dayStart dayEnd : Int) : List TimeBlock :=
  buildBlocks userCalendars (List.insertionSort startLE events)
    (dayStart + 480) (dayEnd + 1380)

/-- A calendar event whose start and end coincide (09:00), allowed by the
data model's `end ≥ start` invariant. -/
def zeroLengthEvent : DbEvent := { startTime := 540, endTime := 540 }

/-- C7 counterexample: on a zero-length 09:00 event the day-block builder
emits the event block verbatim, with `end = start` — a zero-length block —
so "every block satisfies end > start" fails for this input event list. -/
theorem zero_length_block_emitted :
    analyzeCalendar [zeroLengthEvent] [] 0 1440
      = [{ start := 480, endT := 540, context := BlockContext.FREE },
          { start := 540, endT := 540, context := BlockContext.FREE,
            eventSummary := some "" },
          { start := 540, endT := 2820, context := BlockContext.FREE }] ∧
      ¬ (∀ b ∈ analyzeCalendar [zeroLengthEvent] [] 0 1440, b.start < b.endT) :=
  ⟨by decide, by decide⟩

theorem events_chain (events : List DbEvent)
    (h1 : ∀ e ∈ events, e.startTime < e.endTime)
    (h2 : events.Pairwise
      (fun a b => a.endTime ≤ b.startTime ∨ b.endTime ≤ a.startTime)) :
    (List.insertionSort startLE events).Pairwise
      (fun a b => a.endTime ≤ b.startTime) := by
  have hperm := List.perm_insertionSort startLE events
  have hsorted : (List.insertionSort startLE events).Pairwise startLE :=
    List.sorted_insertionSort startLE events
  have h2' : (List.insertionSort startLE events).Pairwise
      (fun a b => a.endTime ≤ b.startTime ∨ b.endTime ≤ a.startTime) :=
    (hperm.pairwise_iff (fun hxy => hxy.symm)).2 h2
  refine (h2'.and hsorted).imp_of_mem ?_
  intro a b ha hb hr
  rcases hr.1 with hor | hor
  · exact hor
  · have hb1 := h1 b (hperm.mem_iff.1 hb)
    have hab : a.startTime ≤ b.startTime := hr.2
    omega

theorem buildBlocks_start_ge (cm : List (String × String)) :
    ∀ (events : List DbEvent) (cur endT : Int),
      (∀ e ∈ events, e.startTime < e.endTime) →
      events.Pairwise (fun a b => a.endTime ≤ b.startTime) →
      (∀ e ∈ events, cur ≤ e.startTime) →
      ∀ b ∈ buildBlocks cm events cur endT, cur ≤ b.start := by
  intro events
  induction events with
  | nil =>
    intro cur endT _ _ _ b hb
    simp only [buildBlocks] at hb
    split at hb
    · rw [List.mem_singleton.1 hb]
    · cases hb
  | cons e rest ih =>
    intro cur endT h1 h2 h3 b hb
    simp only [buildBlocks, List.mem_append, List.mem_cons] at hb
    have hcur : cur ≤ e.startTime := h3 e (List.mem_cons_self e rest)
    have hee : e.startTime < e.endTime := h1 e (List.mem_cons_self e rest)
    rcases hb with hb | hb | hb
    · split at hb
      · rw [List.mem_singleton.1 hb]
      · cases hb
    · rw [hb]
      exact hcur
    · have hrec := ih e.endTime endT
        (fun e' he' => h1 e' (List.mem_cons_of_mem e he'))
        (List.pairwise_cons.1 h2).2
        (List.pairwise_cons.1 h2).1
        b hb
      omega

theorem buildBlocks_sound (cm : List (String × String)) :
    ∀ (events : List DbEvent) (cur endT : Int),
      (∀ e ∈ events, e.startTime < e.endTime) →
      events.Pairwise (fun a b => a.endTime ≤ b.startTime) →
      (∀ b ∈ buildBlocks cm events cur endT, b.start < b.endT) ∧
        (buildBlocks cm events cur endT).Pairwise (fun a b => a.endT ≤ b.start) ∧
        (∀ b ∈ buildBlocks cm events cur endT,
          b.eventSummary = none → b.endT - b.start > 15) := by
  intro events
  induction events with
  | nil =>
    intro cur endT _ _
    simp only [buildBlocks]
    split
    · refine ⟨?_, ?_, ?_⟩
      · intro b hb
        rw [List.mem_singleton.1 hb]
        simp only []
        omega
      · simp
      · intro b hb _
        rw [List.mem_singleton.1 hb]
        simp only []
        omega
    · exact ⟨fun b hb => absurd hb (List.not_mem_nil b), List.Pairwise.nil,
        fun b hb => absurd hb (List.not_mem_nil b)⟩
  | cons e rest ih =>
    intro cur endT h1 h2
    have hee : e.startTime < e.endTime := h1 e (List.mem_cons_self e rest)
    have h1' : ∀ e' ∈ rest, e'.startTime < e'.endTime :=
      fun e' he' => h1 e' (List.mem_cons_of_mem e he')
    have h2' := (List.pairwise_cons.1 h2).2
    have h2h := (List.pairwise_cons.1 h2).1
    have hrec := ih e.endTime endT h1' h2'
    have hge := buildBlocks_start_ge cm rest e.endTime endT h1' h2' h2h
    simp only [buildBlocks]
    refine ⟨?_, ?_, ?_⟩
    · intro b hb
      rcases List.mem_append.1 hb with hb | hb
      · split at hb
        · rename_i hcond
          rw [List.mem_singleton.1 hb]
          exact hcond.1
        · cases hb
      · rcases List.mem_cons.1 hb with hb | hb
        · rw [hb]
          exact hee
        · exact hrec.1 b hb
    · rw [List.pairwise_append]
      refine ⟨?_, ?_, ?_⟩
      · split
        · simp
        · exact List.Pairwise.nil
      · rw [List.pairwise_cons]
        refine ⟨?_, hrec.2.1⟩
        intro b hb
        exact hge b hb
      · intro a ha b hb
        split at ha
        · rename_i hcond
          rw [List.mem_singleton.1 ha]
          rcases List.mem_cons.1 hb with hb | hb
          · rw [hb]
          · have := hge b hb
            simp only []
            omega
        · cases ha
    · intro b hb hsum
      rcases List.mem_append.1 hb with hb | hb
      · split at hb
        · rename_i hcond
          rw [List.mem_singleton.1 hb]
          simp only []
          omega
        · cases hb
      · rcases List.mem_cons.1 hb with hb | hb
        · rw [hb] at hsum
          cases hsum
        · exact hrec.2.2 b hb hsum

/-- C7 (amended): for every input event list whose events are nonempty
(`start < end`) and mutually non-overlapping, the day-block builder emits
blocks with `end > start`, mutually non-overlapping (each block ends no later
than the next starts) and strictly start-ascending; gap blocks (the ones
without an originating event summary) are only emitted when they exceed
15 minutes, so short gaps are omitted rather than emitted as zero-length
blocks.  The zero-length counterexample shows the nonemptiness hypothesis is
necessary; overlapping events likewise break the invariant. -/
theorem day_block_builder_invariants (events : List DbEvent)
    (cals : List (String × String)) (dayStart dayEnd : Int)
    (h1 : ∀ e ∈ events, e.startTime < e.endTime)
    (h2 : events.Pairwise
      (fun a b => a.endTime ≤ b.startTime ∨ b.endTime ≤ a.startTime)) :
    (∀ b ∈ analyzeCalendar events cals dayStart dayEnd, b.start < b.endT) ∧
      (analyzeCalendar events cals dayStart dayEnd).Pairwise
        (fun a b => a.endT ≤ b.start) ∧
      (∀ b ∈ analyzeCalendar events cals dayStart dayEnd,
        b.eventSummary = none → b.endT - b.start > 15) ∧
      (analyzeCalendar events cals dayStart dayEnd).Pairwise
        (fun a b => a.start < b.start) := by
  have hperm := List.perm_insertionSort startLE events
  have hsound := buildBlocks_sound cals (List.insertionSort startLE events)
    (dayStart + 480) (dayEnd + 1380)
    (fun e he => h1 e (hperm.mem_iff.1 he))
    (events_chain events h1 h2)
  refine ⟨hsound.1, hsound.2.1, hsound.2.2, ?_⟩
  refine hsound.2.1.imp_of_mem ?_
  intro a b ha _hb hr
  have := hsound.1 a ha
  omega

/-- A one-hour calendar event, 09:00 to 10:00. -/
def oneHourEvent : DbEvent := { startTime := 540, endTime := 600 }

/-- C7 witness: the amended invariants instantiated on a single one-hour
event. -/
theorem day_block_builder_invariants_witness :
    (∀ b ∈ analyzeCalendar [oneHourEvent] [] 0 1440, b.start < b.endT) ∧
      (analyzeCalendar [oneHourEvent] [] 0 1440).Pairwise
        (fun a b => a.endT ≤ b.start) ∧
      (∀ b ∈ analyzeCalendar [oneHourEvent] [] 0 1440,
        b.eventSummary = none → b.endT - b.start > 15) ∧
      (analyzeCalendar [oneHourEvent] [] 0 1440).Pairwise
        (fun a b => a.start < b.start) :=
  day_block_builder_invariants [oneHourEvent] [] 0 1440 (by decide) (by decide)

/-- Comparator of the free-time detector's event sort: ascending `start`. -/
def cstartLE (a b : CalEvent) : Prop := a.start ≤ b.start

instance : DecidableRel cstartLE := fun a b => Int.decLe a.start b.start

instance : IsTotal CalEvent cstartLE := ⟨fun a b => Int.le_total a.start b.start⟩

instance : IsTrans CalEvent cstartLE := ⟨fun _ _ _ => Int.le_trans⟩

/-- The cursor walk of `detectFreeSlotsFromEvents`: before each event, emit a
free slot when the event starts strictly after the cursor and the gap is at
least `minDurationMinutes`; move the cursor to the event's end only when that
is later (`if (event.end > currentTime)`); after the last event, emit the
remaining gap up to `dayEnd` under the same minimum. -/
def freeWalk : List CalEvent → Int → Int → Int → List TimeSlot
  | [], currentTime, dayEnd, minDur =>
    if currentTime < dayEnd then
      if dayEnd - currentTime ≥ minDur then
        [{ start := currentTime, endT := dayEnd,
            durationMinutes := dayEnd - currentTime }]
      else []
    else []
  | e :: rest, currentTime, dayEnd, minDur =>
    (if e.start > currentTime then
        if e.start - currentTime ≥ minDur then
          [{ start := currentTime, endT := e.start,
              durationMinutes := e.start - currentTime }]
        else []
      else [])
      ++ freeWalk rest (if e.endT > currentTime then e.endT else currentTime) dayEnd minDur

/-- `FreeTimeDetector.detectFreeSlotsFromEvents(events, dayStart, dayEnd,
minDurationMinutes)`: keep the events overlapping the day window, sort them
by start, and walk the gaps from `dayStart`. -/
def detectFreeSlotsFromEvents (events : List CalEvent)
    (dayStart dayEnd minDur : Int) : List TimeSlot :=
  freeWalk
    (List.insertionSort cstartLE
      (events.filter (fun e => decide (e.start < dayEnd) && decide (e.endT > dayStart))))
    dayStart dayEnd minDur

/-- Modelled from the spec's coverage wording: the full list of complement
gaps of the sorted busy intervals within the day window, *without* the
minimum-duration filter — the reference against which the detector's output
is compared ("[dayStart, dayEnd) minus exactly those gaps shorter than
minDurationMinutes"). -/
def specGaps : List CalEvent → Int → Int → List TimeSlot
  | [], cursor, dayEnd =>
    if cursor < dayEnd then
      [{ start := cursor, endT := dayEnd, durationMinutes := dayEnd - cursor }]
    else []
  | e :: rest, cursor, dayEnd =>
    (if cursor < e.start then
        [{ start := cursor, endT := e.start, durationMinutes := e.start - cursor }]
      else [])
      ++ specGaps rest e.endT dayEnd

theorem freeWalk_eq_filter_specGaps :
    ∀ (events : List CalEvent) (cur dayEnd minDur : Int),
      (∀ e ∈ events, cur ≤ e.start ∧ e.start ≤ e.endT) →
      events.Pairwise (fun a b => a.endT ≤ b.start) →
      freeWalk events cur dayEnd minDur
        = (specGaps events cur dayEnd).filter
            (fun s => decide (s.endT - s.start ≥ minDur)) := by
  intro events
  induction events with
  | nil =>
    intro cur dayEnd minDur _ _
    simp only [freeWalk, specGaps]
    by_cases h1 : cur < dayEnd
    · rw [if_pos h1, if_pos h1]
      by_cases h2 : dayEnd - cur ≥ minDur
      · rw [if_pos h2]
        simp [h2]
      · rw [if_neg h2]
        simp [h2]
    · rw [if_neg h1, if_neg h1]
      rfl
  | cons e rest ih =>
    intro cur dayEnd minDur h1 h2
    have he := h1 e (List.mem_cons_self e rest)
    have hcursor : (if e.endT > cur then e.endT else cur) = e.endT := by
      split
      · rfl
      · omega
    simp only [freeWalk, specGaps, List.filter_append, hcursor]
    congr 1
    · by_cases hgap : e.start > cur
      · rw [if_pos hgap, if_pos hgap]
        by_cases hmin : e.start - cur ≥ minDur
        · rw [if_pos hmin]
          simp [hmin]
        · rw [if_neg hmin]
          simp [hmin]
      · rw [if_neg hgap, if_neg (by omega : ¬ cur < e.start)]
        rfl
    · exact ih e.endT dayEnd minDur
        (fun e' he' => ⟨(List.pairwise_cons.1 h2).1 e' he', (h1 e' (List.mem_cons_of_mem e he')).2⟩)
        (List.pairwise_cons.1 h2).2

theorem specGaps_start_ge :
    ∀ (events : List CalEvent) (cur dayEnd : Int),
      (∀ e ∈ events, cur ≤ e.start ∧ e.start ≤ e.endT) →
      events.Pairwise (fun a b => a.endT ≤ b.start) →
      ∀ s ∈ specGaps events cur dayEnd, cur ≤ s.start := by
  intro events
  induction events with
  | nil =>
    intro cur dayEnd _ _ s hs
    simp only [specGaps] at hs
    split at hs
    · rw [List.mem_singleton.1 hs]
    · cases hs
  | cons e rest ih =>
    intro cur dayEnd h1 h2 s hs
    have he := h1 e (List.mem_cons_self e rest)
    simp only [specGaps, List.mem_append] at hs
    rcases hs with hs | hs
    · split at hs
      · rw [List.mem_singleton.1 hs]
      · cases hs
    · have := ih e.endT dayEnd
        (fun e' he' =>
          ⟨(List.pairwise_cons.1 h2).1 e' he', (h1 e' (List.mem_cons_of_mem e he')).2⟩)
        (List.pairwise_cons.1 h2).2 s hs
      omega

theorem specGaps_form :
    ∀ (events : List CalEvent) (cur dayEnd : Int),
      ∀ s ∈ specGaps events cur dayEnd,
        s.durationMinutes = s.endT - s.start ∧ s.start < s.endT := by
  intro events
  induction events with
  | nil =>
    intro cur dayEnd s hs
    simp only [specGaps] at hs
    split at hs
    · rename_i hc
      rw [List.mem_singleton.1 hs]
      exact ⟨rfl, hc⟩
    · cases hs
  | cons e rest ih =>
    intro cur dayEnd s hs
    simp only [specGaps, List.mem_append] at hs
    rcases hs with hs | hs
    · split at hs
      · rename_i hc
        rw [List.mem_singleton.1 hs]
        exact ⟨rfl, hc⟩
      · cases hs
    · exact ih e.endT dayEnd s hs

theorem specGaps_pairwise :
    ∀ (events : List CalEvent) (cur dayEnd : Int),
      (∀ e ∈ events, cur ≤ e.start ∧ e.start ≤ e.endT) →
      events.Pairwise (fun a b => a.endT ≤ b.start) →
      (specGaps events cur dayEnd).Pairwise (fun a b => a.endT ≤ b.start) := by
  intro events
  induction events with
  | nil =>
    intro cur dayEnd _ _
    simp only [specGaps]
    split
    · simp
    · exact List.Pairwise.nil
  | cons e rest ih =>
    intro cur dayEnd h1 h2
    have he := h1 e (List.mem_cons_self e rest)
    have h1' : ∀ e' ∈ rest, e.endT ≤ e'.start ∧ e'.start ≤ e'.endT :=
      fun e' he' =>
        ⟨(List.pairwise_cons.1 h2).1 e' he', (h1 e' (List.mem_cons_of_mem e he')).2⟩
    have h2' := (List.pairwise_cons.1 h2).2
    simp only [specGaps]
    rw [List.pairwise_append]
    refine ⟨?_, ih e.endT dayEnd h1' h2', ?_⟩
    · split
      · simp
      · exact List.Pairwise.nil
    · intro a ha b hb
      have hbge := specGaps_start_ge rest e.endT dayEnd h1' h2' b hb
      split at ha
      · rw [List.mem_singleton.1 ha]
        simp only []
        omega
      · cases ha

theorem specGaps_cover :
    ∀ (events : List CalEvent) (cur dayEnd : Int),
      (∀ e ∈ events, cur ≤ e.start ∧ e.start ≤ e.endT) →
      events.Pairwise (fun a b => a.endT ≤ b.start) →
      ∀ m : Int, cur ≤ m → m < dayEnd →
        ((∃ s ∈ specGaps events cur dayEnd, s.start ≤ m ∧ m < s.endT)
          ↔ ¬ ∃ e ∈ events, e.start ≤ m ∧ m < e.endT) := by
  intro events
  induction events with
  | nil =>
    intro cur dayEnd _ _ m hm1 hm2
    constructor
    · intro _
      rintro ⟨e, he, _⟩
      cases he
    · intro _
      refine ⟨{ start := cur, endT := dayEnd, durationMinutes := dayEnd - cur }, ?_, hm1, hm2⟩
      simp only [specGaps]
      rw [if_pos (by omega : cur < dayEnd)]
      exact List.mem_singleton.2 rfl
  | cons e rest ih =>
    intro cur dayEnd h1 h2 m hm1 hm2
    have he := h1 e (List.mem_cons_self e rest)
    have h1' : ∀ e' ∈ rest, e.endT ≤ e'.start ∧ e'.start ≤ e'.endT :=
      fun e' he' =>
        ⟨(List.pairwise_cons.1 h2).1 e' he', (h1 e' (List.mem_cons_of_mem e he')).2⟩
    have h2' := (List.pairwise_cons.1 h2).2
    rcases lt_or_le m e.start with hcase | hcase
    · -- before the event: m lies in the leading gap and in no busy interval
      constructor
      · intro _
        rintro ⟨ev, hev, hev1, hev2⟩
        rcases List.mem_cons.1 hev with rfl | hev
        · omega
        · have := (h1' ev hev).1
          omega
      · intro _
        refine ⟨{ start := cur, endT := e.start, durationMinutes := e.start - cur }, ?_, hm1, hcase⟩
        simp only [specGaps, List.mem_append]
        left
        rw [if_pos (by omega : cur < e.start)]
        exact List.mem_singleton.2 rfl
    · rcases lt_or_le m e.endT with hcase2 | hcase2
      · -- inside the event: busy, and in no gap
        constructor
        · rintro ⟨s, hs, hs1, hs2⟩
          simp only [specGaps, List.mem_append] at hs
          rcases hs with hs | hs
          · split at hs
            · rw [List.mem_singleton.1 hs] at hs1 hs2
              simp only [] at hs1 hs2
              omega
            · cases hs
          · have := specGaps_start_ge rest e.endT dayEnd h1' h2' s hs
            omega
        · intro hno
          exact absurd ⟨e, List.mem_cons_self e rest, hcase, hcase2⟩ hno
      · -- after the event: defer to the remaining events
        have hih := ih e.endT dayEnd h1' h2' m hcase2 hm2
        constructor
        · rintro ⟨s, hs, hs1, hs2⟩
          simp only [specGaps, List.mem_append] at hs
          rcases hs with hs | hs
          · split at hs
            · rw [List.mem_singleton.1 hs] at hs2
              simp only [] at hs2
              omega
            · cases hs
          · rintro ⟨ev, hev, hev1, hev2⟩
            rcases List.mem_cons.1 hev with rfl | hev
            · omega
            · exact absurd ⟨ev, hev, hev1, hev2⟩ (hih.1 ⟨s, hs, hs1, hs2⟩)
        · intro hno
          have hno' : ¬ ∃ ev ∈ rest, ev.start ≤ m ∧ m < ev.endT := by
            rintro ⟨ev, hev, hev1, hev2⟩
            exact hno ⟨ev, List.mem_cons_of_mem e hev, hev1, hev2⟩
          rcases hih.2 hno' with ⟨s, hs, hs1, hs2⟩
          refine ⟨s, ?_, hs1, hs2⟩
          simp only [specGaps, List.mem_append]
          right
          exact hs

/-- C2: for mutually non-overlapping busy intervals sorted by start, each
nonempty and inside the day window, the free-gap computation returns slots
that are mutually non-overlapping and sorted (each ends no later than the
next starts, and each is nonempty, hence strictly start-ascending), each of
length at least `minDurationMinutes` with the recorded duration equal to
`end - start`; and a minute of the window is covered by a free slot or a busy
interval exactly when it does not lie in a complement gap shorter than
`minDurationMinutes`. -/
theorem free_gap_computation_correct (events : List CalEvent)
    (dayStart dayEnd minDur : Int)
    (h1 : ∀ e ∈ events, dayStart ≤ e.start ∧ e.start < e.endT ∧ e.endT ≤ dayEnd)
    (h2 : events.Pairwise (fun a b => a.endT ≤ b.start)) :
    (detectFreeSlotsFromEvents events dayStart dayEnd minDur).Pairwise
        (fun a b => a.endT ≤ b.start) ∧
      (∀ s ∈ detectFreeSlotsFromEvents events dayStart dayEnd minDur,
        minDur ≤ s.durationMinutes ∧ s.durationMinutes = s.endT - s.start ∧
          s.start < s.endT) ∧
      (∀ m : Int, dayStart ≤ m → m < dayEnd →
        (((∃ s ∈ detectFreeSlotsFromEvents events dayStart dayEnd minDur,
              s.start ≤ m ∧ m < s.endT)
            ∨ ∃ e ∈ events, e.start ≤ m ∧ m < e.endT)
          ↔ ¬ ∃ g ∈ specGaps events dayStart dayEnd,
              g.endT - g.start < minDur ∧ g.start ≤ m ∧ m < g.endT)) := by
  have hwin : ∀ e ∈ events, dayStart ≤ e.start ∧ e.start ≤ e.endT :=
    fun e he => ⟨(h1 e he).1, le_of_lt (h1 e he).2.1⟩
  have hfilter : events.filter
      (fun e => decide (e.start < dayEnd) && decide (e.endT > dayStart)) = events := by
    refine List.filter_eq_self.2 (fun e he => ?_)
    have := h1 e he
    simp only [Bool.and_eq_true, decide_eq_true_eq]
    omega
  have hsorted : List.Sorted cstartLE events := by
    refine h2.imp_of_mem ?_
    intro a b ha _hb hr
    have := h1 a ha
    show a.start ≤ b.start
    omega
  have hdetect : detectFreeSlotsFromEvents events dayStart dayEnd minDur
      = (specGaps events dayStart dayEnd).filter
          (fun s => decide (s.endT - s.start ≥ minDur)) := by
    unfold detectFreeSlotsFromEvents
    rw [hfilter, hsorted.insertionSort_eq]
    exact freeWalk_eq_filter_specGaps events dayStart dayEnd minDur hwin h2
  have hdisj := specGaps_pairwise events dayStart dayEnd hwin h2
  refine ⟨?_, ?_, ?_⟩
  · rw [hdetect]
    exact List.Pairwise.sublist (List.filter_sublist _) hdisj
  · intro s hs
    rw [hdetect] at hs
    have hsmem := (List.mem_filter.1 hs).1
    have hsmin := of_decide_eq_true (List.mem_filter.1 hs).2
    have hform := specGaps_form events dayStart dayEnd s hsmem
    exact ⟨by omega, hform.1, hform.2⟩
  · intro m hm1 hm2
    have hcov := specGaps_cover events dayStart dayEnd hwin h2 m hm1 hm2
    constructor
    · rintro (⟨s, hs, hs1, hs2⟩ | hbusy)
      · rw [hdetect] at hs
        have hsmem := (List.mem_filter.1 hs).1
        have hsmin := of_decide_eq_true (List.mem_filter.1 hs).2
        rintro ⟨g, hg, hglt, hg1, hg2⟩
        by_cases hgs : g = s
        · subst hgs
          omega
        · have hsym : Symmetric
              (fun a b : TimeSlot => a.endT ≤ b.start ∨ b.endT ≤ a.start) :=
            fun a b hab => hab.symm
          have hdisj' : (specGaps events dayStart dayEnd).Pairwise
              (fun a b => a.endT ≤ b.start ∨ b.endT ≤ a.start) :=
            hdisj.imp (fun h => Or.inl h)
          have := hdisj'.forall hsym hg hsmem hgs
          omega
      · rintro ⟨g, hg, _hglt, hg1, hg2⟩
        exact absurd hbusy (hcov.1 ⟨g, hg, hg1, hg2⟩)
    · intro hnoshort
      by_cases hbusy : ∃ e ∈ events, e.start ≤ m ∧ m < e.endT
      · exact Or.inr hbusy
      · rcases hcov.2 hbusy with ⟨g, hg, hg1, hg2⟩
        left
        by_cases hgmin : g.endT - g.start ≥ minDur
        · refine ⟨g, ?_, hg1, hg2⟩
          rw [hdetect]
          exact List.mem_filter.2 ⟨hg, decide_eq_true hgmin⟩
        · exact absurd ⟨g, hg, by omega, hg1, hg2⟩ hnoshort

/-- A busy interval 09:00–10:00 of the free-time detector. -/
def busyNineToTen : CalEvent := { start := 540, endT := 600 }

/-- C2 witness: the free-gap correctness instantiated on one busy interval
09:00–10:00 in the 08:00–23:00 window with the default 15-minute minimum. -/
theorem free_gap_computation_correct_witness :
    (detectFreeSlotsFromEvents [busyNineToTen] 480 1380 15).Pairwise
        (fun a b => a.endT ≤ b.start) ∧
      (∀ s ∈ detectFreeSlotsFromEvents [busyNineToTen] 480 1380 15,
        (15 : Int) ≤ s.durationMinutes ∧ s.durationMinutes = s.endT - s.start ∧
          s.start < s.endT) ∧
      (∀ m : Int, (480 : Int) ≤ m → m < 1380 →
        (((∃ s ∈ detectFreeSlotsFromEvents [busyNineToTen] 480 1380 15,
              s.start ≤ m ∧ m < s.endT)
            ∨ ∃ e ∈ [busyNineToTen], e.start ≤ m ∧ m < e.endT)
          ↔ ¬ ∃ g ∈ specGaps [busyNineToTen] 480 1380,
              g.endT - g.start < 15 ∧ g.start ≤ m ∧ m < g.endT)) :=
  free_gap_computation_correct [busyNineToTen] 480 1380 15 (by decide) (by decide)

end Atlas
